import Mathlib

/-
Verification development for the rusty-journal-clap repository.

The program (src/task.rs, src/lib.rs) is a task-journal CLI: every operation
loads a JSON array of tasks from a backing file, applies one in-memory
mutation, and writes the array back.  This file shallowly embeds:

  * the Task data model (struct Task { name, state, tags: Option<Vec<String>>,
    creted_at: DateTime<Utc> serialized via chrono's ts_seconds }),
  * the serde_json (de)serialization used through serde_json::from_reader /
    serde_json::to_writer, as an executable character-list parser/renderer that
    mirrors serde_json's streaming behaviour, including its classification of
    errors into end-of-input (`Error::is_eof`) and other failures,
  * the journal-store operations Task::add / Task::remove / Task::list over an
    explicit file-system state (the backing file's contents, or absence).

Modelling notes:
  * chrono's `DateTime<Utc>` is modelled as whole seconds plus a nanosecond
    component (`DateTimeUtc`); the chrono type's internal range bound on the
    seconds is not baked into the Lean type, so theorems that need it take it
    as an explicit hypothesis (`WF`).  `ts_seconds` serialization writes the
    seconds and deserializes with a zero nanosecond component, exactly as the
    chrono serde adapter does.
  * serde_json accepts a positional JSON array as an encoding of a struct
    (`deserialize_struct` also visits sequences); that alternative input shape
    is not modelled, no claim depends on it.
  * Display rendering (`impl Display for Task`) formats `creted_at` in the
    machine-local timezone; the local timezone is outside the model, so list
    output is modelled as the sequence of emitted items (empty-list notice or
    task line per task), not as formatted text.
-/

set_option maxHeartbeats 1000000

namespace RustyJournal

/-! ## Characters, digits, whitespace -/

def isWs (c : Char) : Bool :=
  c = ' ' || c = '\t' || c = '\n' || c = '\r'

def skipWs : List Char → List Char
  | [] => []
  | c :: r => if isWs c then skipWs r else c :: r

def decDigitOf : Nat → Char
  | 0 => '0' | 1 => '1' | 2 => '2' | 3 => '3' | 4 => '4'
  | 5 => '5' | 6 => '6' | 7 => '7' | 8 => '8' | _ => '9'

def hexCharOf : Nat → Char
  | 0 => '0' | 1 => '1' | 2 => '2' | 3 => '3' | 4 => '4'
  | 5 => '5' | 6 => '6' | 7 => '7' | 8 => '8' | 9 => '9'
  | 10 => 'a' | 11 => 'b' | 12 => 'c' | 13 => 'd' | 14 => 'e' | _ => 'f'

def isDigit (c : Char) : Bool :=
  48 ≤ c.toNat && c.toNat ≤ 57

def digitVal (c : Char) : Nat := c.toNat - 48

def hexVal (c : Char) : Option Nat :=
  if 48 ≤ c.toNat ∧ c.toNat ≤ 57 then some (c.toNat - 48)
  else if 97 ≤ c.toNat ∧ c.toNat ≤ 102 then some (c.toNat - 87)
  else if 65 ≤ c.toNat ∧ c.toNat ≤ 70 then some (c.toNat - 55)
  else none

/-! ## Decimal integers -/

def natToDigitsAux : Nat → Nat → List Char → List Char
  | 0, _, acc => acc
  | fuel + 1, n, acc =>
    if n < 10 then decDigitOf n :: acc
    else natToDigitsAux fuel (n / 10) (decDigitOf (n % 10) :: acc)

def natToDigits (n : Nat) : List Char := natToDigitsAux (n + 1) n []

/-- Rendering of an `i64` the way serde_json's integer serializer does. -/
def renderInt (n : Int) : List Char :=
  if n < 0 then '-' :: natToDigits n.natAbs else natToDigits n.natAbs

def parseDigits : Nat → List Char → Nat × List Char
  | acc, [] => (acc, [])
  | acc, c :: r =>
    if isDigit c then parseDigits (acc * 10 + digitVal c) r else (acc, c :: r)

/-! ## Decode errors, mirroring serde_json's error classification.

serde_json errors expose `is_eof()`: true exactly for the errors raised when
the input ends prematurely.  `Task::_get_tasks` branches on that method, so
the embedding keeps the classification. -/

inductive DecErr
  | eofValue | eofString | eofList | eofObject
  | expectedValue | expectedIdent | expectedColon
  | expectedListCommaOrEnd | expectedObjectCommaOrEnd
  | trailingCharacters | controlCharacterInString | invalidEscape
  | lexicalErr | invalidNumber | invalidType | unknownVariant
  | keyMustBeString | outOfFuel
  | missingField (f : String)
  | duplicateField (f : String)
  deriving DecidableEq, Repr

def DecErr.is_eof : DecErr → Bool
  | .eofValue | .eofString | .eofList | .eofObject => true
  | _ => false

/-! ## JSON string escaping (serde_json serializer side) -/

def escapeChar (c : Char) : List Char :=
  if c = '"' then ['\\', '"']
  else if c = '\\' then ['\\', '\\']
  else if c = '\x08' then ['\\', 'b']
  else if c = '\t' then ['\\', 't']
  else if c = '\n' then ['\\', 'n']
  else if c = '\x0c' then ['\\', 'f']
  else if c = '\r' then ['\\', 'r']
  else if c.toNat < 32 then
    '\\' :: 'u' :: '0' :: '0' :: hexCharOf (c.toNat / 16) :: [hexCharOf (c.toNat % 16)]
  else [c]

def escList : List Char → List Char
  | [] => []
  | c :: r => escapeChar c ++ escList r

def escapeString (s : String) : List Char := escList s.data

def renderString (s : String) : List Char :=
  '"' :: escapeString s ++ ['"']

/-! ## JSON string parsing (after the opening quote) -/

/-- Decode one escape sequence (the input starts after the backslash),
returning the decoded character and the remaining input, with serde_json's
handling of `\uXXXX` and surrogate pairs. -/
def unescape1 : List Char → Except DecErr (Char × List Char)
  | [] => .error .eofString
  | e :: r2 =>
    if e = '"' then .ok ('"', r2)
    else if e = '\\' then .ok ('\\', r2)
    else if e = '/' then .ok ('/', r2)
    else if e = 'b' then .ok ('\x08', r2)
    else if e = 'f' then .ok ('\x0c', r2)
    else if e = 'n' then .ok ('\n', r2)
    else if e = 'r' then .ok ('\r', r2)
    else if e = 't' then .ok ('\t', r2)
    else if e = 'u' then
      match r2 with
      | h1 :: h2 :: h3 :: h4 :: r3 =>
        match hexVal h1, hexVal h2, hexVal h3, hexVal h4 with
        | some a, some b, some c2, some d =>
          let code := a * 4096 + b * 256 + c2 * 16 + d
          if 0xD800 ≤ code ∧ code ≤ 0xDBFF then
            match r3 with
            | e2 :: u2 :: g1 :: g2 :: g3 :: g4 :: r4 =>
              if e2 = '\\' ∧ u2 = 'u' then
                match hexVal g1, hexVal g2, hexVal g3, hexVal g4 with
                | some a2, some b2, some c3, some d2 =>
                  let low := a2 * 4096 + b2 * 256 + c3 * 16 + d2
                  if 0xDC00 ≤ low ∧ low ≤ 0xDFFF then
                    .ok (Char.ofNat (0x10000 + (code - 0xD800) * 1024 + (low - 0xDC00)), r4)
                  else .error .lexicalErr
                | _, _, _, _ => .error .lexicalErr
              else .error .lexicalErr
            | _ => .error .lexicalErr
          else if 0xDC00 ≤ code ∧ code ≤ 0xDFFF then .error .lexicalErr
          else .ok (Char.ofNat code, r3)
        | _, _, _, _ => .error .invalidEscape
      | _ => .error .eofString
    else .error .invalidEscape

/-- String-body loop.  The fuel only bounds the number of decoded
characters; every entry point passes `input.length + 1`, which a loop that
consumes at least one character per decoded character cannot exhaust. -/
def parseStringBody : Nat → List Char → List Char → Except DecErr (String × List Char)
  | 0, _, _ => .error .outOfFuel
  | fuel + 1, acc, input =>
    match input with
    | [] => .error .eofString
    | c :: r =>
      if c = '"' then .ok (String.mk acc, r)
      else if c = '\\' then
        match unescape1 r with
        | .error e => .error e
        | .ok (ch, r2) => parseStringBody fuel (acc ++ [ch]) r2
      else if c.toNat < 32 then .error .controlCharacterInString
      else parseStringBody fuel (acc ++ [c]) r

/-! ## Data model (src/task.rs lines 9-29) -/

/-- chrono `DateTime<Utc>`: an instant with second and subsecond components.
The chrono type also bounds the representable range; theorems that depend on
that invariant of the Rust type take it as an explicit hypothesis. -/
structure DateTimeUtc where
  secs : Int
  nanos : Nat
  deriving DecidableEq, Repr

/-- `enum State { Active, Complete }`, serde-tagged with `tag = "type"`. -/
inductive State
  | Active
  | Complete
  deriving DecidableEq, Repr

/-- `struct Task { name, state, tags: Option<Vec<String>>, creted_at }`. -/
structure Task where
  name : String
  state : State
  tags : Option (List String)
  creted_at : DateTimeUtc
  deriving DecidableEq, Repr

/-- `Task::new` (src/task.rs lines 42-49); `Utc::now()` is the external time
source, passed in as `now`. -/
def Task.new (task_name : String) (task_tags : Option (List String))
    (now : DateTimeUtc) : Task :=
  { name := task_name, state := .Active, tags := task_tags, creted_at := now }

/-- Generic JSON values, used where serde buffers or skips content
(unknown struct fields via `IgnoredAny`, the internally tagged `State`
enum's buffering deserializer, and serde_json's invalid-type reporting
path, which parses the unexpected value before erroring).  The numeric
value of floating-point literals is irrelevant to every use (they are
only skipped or rejected), so `numF` records just their presence. -/
inductive Json
  | null
  | bool (b : Bool)
  | num (n : Int)
  | numF
  | str (s : String)
  | arr (xs : List Json)
  | obj (fs : List (String × Json))
  deriving Repr

/-! ## Number lexing (serde_json `parse_integer` / `parse_number`) -/

/-- Lex the fractional/exponent tail of a number.  Returns the remaining
input when the lexeme is a syntactically valid float continuation. -/
def lexFloatTail : List Char → Except DecErr (List Char)
  | [] => .ok []
  | c :: r =>
    if c = '.' then
      match r with
      | [] => .error .eofValue
      | d :: r2 =>
        if isDigit d then
          let (_, r3) := parseDigits 0 (d :: r2)
          match r3 with
          | e :: r4 =>
            if e = 'e' || e = 'E' then
              match r4 with
              | [] => .error .eofValue
              | s :: r5 =>
                if s = '+' || s = '-' then
                  match r5 with
                  | [] => .error .eofValue
                  | d2 :: r6 =>
                    if isDigit d2 then .ok (parseDigits 0 (d2 :: r6)).2
                    else .error .invalidNumber
                else if isDigit s then .ok (parseDigits 0 (s :: r5)).2
                else .error .invalidNumber
            else .ok r3
          | [] => .ok []
        else .error .invalidNumber
    else if c = 'e' || c = 'E' then
      match r with
      | [] => .error .eofValue
      | s :: r2 =>
        if s = '+' || s = '-' then
          match r2 with
          | [] => .error .eofValue
          | d2 :: r3 =>
            if isDigit d2 then .ok (parseDigits 0 (d2 :: r3)).2
            else .error .invalidNumber
        else if isDigit s then .ok (parseDigits 0 (s :: r2)).2
        else .error .invalidNumber
    else .ok (c :: r)

/-- Digit-run part of a JSON number lexeme, after the optional sign,
enforcing JSON's no-leading-zero rule the way serde_json does. -/
def lexNumberCore (neg : Bool) : List Char → Except DecErr (Json × List Char)
  | [] => .error .eofValue
  | c :: r =>
    if isDigit c then
      let (m, rest) :=
        if c = '0' then ((0 : Nat), r)
        else parseDigits 0 (c :: r)
      if c = '0' then
        match r with
        | d :: _ =>
          if isDigit d then .error .invalidNumber
          else
            match lexFloatTail rest with
            | .error e => .error e
            | .ok rest2 =>
              if rest2 = rest then .ok (.num 0, rest)
              else .ok (.numF, rest2)
        | [] => .ok (.num 0, [])
      else
        match lexFloatTail rest with
        | .error e => .error e
        | .ok rest2 =>
          if rest2 = rest then
            -- serde_json overflows u64 into f64; either way a non-integer
            -- classification, rejected by integer visitors downstream.
            if (2 ^ 64 : Nat) ≤ m then .ok (.numF, rest)
            else .ok (.num (if neg then -(m : Int) else (m : Int)), rest)
          else .ok (.numF, rest2)
    else .error .invalidNumber

/-- Lex one JSON number starting at a `-` or digit.  Produces `.num` for
integers and `.numF` for floats (value not modelled). -/
def lexNumber (input : List Char) : Except DecErr (Json × List Char) :=
  match input with
  | [] => .error .eofValue
  | c :: r =>
    if c = '-' then
      match r with
      | [] => .error .eofValue
      | _ => lexNumberCore true r
    else lexNumberCore false (c :: r)

/-- `expectIdent kw rest`: consume the keyword tail (e.g. `"ull"` after the
`n` of `null`), with serde_json's eof/ident error split. -/
def expectIdent : List Char → List Char → Except DecErr (List Char)
  | [], input => .ok input
  | _ :: _, [] => .error .eofValue
  | k :: ks, c :: r => if c = k then expectIdent ks r else .error .expectedIdent

/-! ## Generic JSON value parser (serde's buffering / skipping path).

Fuel bounds the recursion depth and loop counts; every entry point passes
`input.length + 1`, which a run that consumes at least one character per
step can never exhaust. -/

mutual

def parseValue : Nat → List Char → Except DecErr (Json × List Char)
  | 0, _ => .error .outOfFuel
  | fuel + 1, input =>
    match skipWs input with
    | [] => .error .eofValue
    | c :: r =>
      if c = 'n' then
        match expectIdent ['u', 'l', 'l'] r with
        | .error e => .error e
        | .ok rest => .ok (.null, rest)
      else if c = 't' then
        match expectIdent ['r', 'u', 'e'] r with
        | .error e => .error e
        | .ok rest => .ok (.bool true, rest)
      else if c = 'f' then
        match expectIdent ['a', 'l', 's', 'e'] r with
        | .error e => .error e
        | .ok rest => .ok (.bool false, rest)
      else if c = '"' then
        match parseStringBody (r.length + 1) [] r with
        | .error e => .error e
        | .ok (s, rest) => .ok (.str s, rest)
      else if c = '-' || isDigit c then lexNumber (c :: r)
      else if c = '[' then
        match parseArrElems fuel true r with
        | .error e => .error e
        | .ok (xs, rest) => .ok (.arr xs, rest)
      else if c = '{' then
        match parseObjPairs fuel true r with
        | .error e => .error e
        | .ok (fs, rest) => .ok (.obj fs, rest)
      else .error .expectedValue

def parseArrElems : Nat → Bool → List Char → Except DecErr (List Json × List Char)
  | 0, _, _ => .error .outOfFuel
  | fuel + 1, first, input =>
    match skipWs input with
    | [] => .error .eofList
    | c :: r =>
      if first && c = ']' then .ok ([], r)
      else
        match parseValue fuel (c :: r) with
        | .error e => .error e
        | .ok (v, rest) =>
          match skipWs rest with
          | [] => .error .eofList
          | c2 :: r2 =>
            if c2 = ']' then .ok ([v], r2)
            else if c2 = ',' then
              match parseArrElems fuel false r2 with
              | .error e => .error e
              | .ok (vs, rest2) => .ok (v :: vs, rest2)
            else .error .expectedListCommaOrEnd

def parseObjPairs : Nat → Bool → List Char → Except DecErr (List (String × Json) × List Char)
  | 0, _, _ => .error .outOfFuel
  | fuel + 1, first, input =>
    match skipWs input with
    | [] => .error .eofObject
    | c :: r =>
      if first && c = '}' then .ok ([], r)
      else if c = '"' then
        match parseStringBody (r.length + 1) [] r with
        | .error e => .error e
        | .ok (k, rest) =>
          match skipWs rest with
          | [] => .error .eofObject
          | c2 :: r2 =>
            if c2 = ':' then
              match parseValue fuel r2 with
              | .error e => .error e
              | .ok (v, rest2) =>
                match skipWs rest2 with
                | [] => .error .eofObject
                | c3 :: r3 =>
                  if c3 = '}' then .ok ([(k, v)], r3)
                  else if c3 = ',' then
                    match parseObjPairs fuel false r3 with
                    | .error e => .error e
                    | .ok (kvs, rest3) => .ok ((k, v) :: kvs, rest3)
                  else .error .expectedObjectCommaOrEnd
            else .error .expectedColon
      else .error .keyMustBeString

end

/-- serde_json's invalid-type reporting path: the unexpected value is parsed
(to describe it in the error) before the Data-category error is raised, so a
truncated unexpected value still reports its own (possibly eof) parse error. -/
def peekInvalidType (input : List Char) : DecErr :=
  match parseValue (input.length + 1) input with
  | .error e => e
  | .ok _ => .invalidType

/-! ## Streaming deserialization of `Vec<Task>`
(`serde_json::from_reader::<_, Vec<Task>>`, src/task.rs line 52). -/

/-- A `String` field value (the `name` field). -/
def parseNameValue (input : List Char) : Except DecErr (String × List Char) :=
  match skipWs input with
  | [] => .error .eofValue
  | c :: r =>
    if c = '"' then parseStringBody (r.length + 1) [] r
    else .error (peekInvalidType (c :: r))

/-- An `i64` field value via chrono's `ts_seconds` visitor: floats and
non-numbers are Data errors; integers outside `i64` are likewise rejected
(values at such astronomical magnitude are a corner no claim touches). -/
def parseSecsValue (input : List Char) : Except DecErr (Int × List Char) :=
  match skipWs input with
  | [] => .error .eofValue
  | c :: r =>
    if c = '-' || isDigit c then
      match lexNumber (c :: r) with
      | .error e => .error e
      | .ok (.num n, rest) =>
        if -(2 ^ 63 : Int) ≤ n ∧ n < 2 ^ 63 then .ok (n, rest)
        else .error .invalidType
      | .ok (_, _) => .error .invalidType
    else .error (peekInvalidType (c :: r))

/-- The internally tagged `State` enum: serde buffers the whole map
generically, then dispatches on the `"type"` tag. -/
def stateFromPairs (pairs : List (String × Json)) : Except DecErr State :=
  if 2 ≤ (pairs.filter (fun kv => kv.1 = "type")).length then
    .error (.duplicateField "type")
  else
    match pairs.find? (fun kv => kv.1 = "type") with
    | none => .error (.missingField "type")
    | some (_, .str "Active") => .ok .Active
    | some (_, .str "Complete") => .ok .Complete
    | some (_, .str _) => .error .unknownVariant
    | some _ => .error .invalidType

def parseStateValue (input : List Char) : Except DecErr (State × List Char) :=
  match skipWs input with
  | [] => .error .eofValue
  | c :: r =>
    if c = '{' then
      match parseObjPairs (r.length + 1) true r with
      | .error e => .error e
      | .ok (pairs, rest) =>
        match stateFromPairs pairs with
        | .error e => .error e
        | .ok st => .ok (st, rest)
    else .error (peekInvalidType (c :: r))

/-- Elements of a `Vec<String>`. -/
def parseStrList : Nat → Bool → List Char → Except DecErr (List String × List Char)
  | 0, _, _ => .error .outOfFuel
  | fuel + 1, first, input =>
    match skipWs input with
    | [] => .error .eofList
    | c :: r =>
      if first && c = ']' then .ok ([], r)
      else if c = '"' then
        match parseStringBody (r.length + 1) [] r with
        | .error e => .error e
        | .ok (s, rest) =>
          match skipWs rest with
          | [] => .error .eofList
          | c2 :: r2 =>
            if c2 = ']' then .ok ([s], r2)
            else if c2 = ',' then
              match parseStrList fuel false r2 with
              | .error e => .error e
              | .ok (ss, rest2) => .ok (s :: ss, rest2)
            else .error .expectedListCommaOrEnd
      else .error (peekInvalidType (c :: r))

/-- An `Option<Vec<String>>` field value: `null` is `None`, an array of
strings is `Some`. -/
def parseTagsValue (input : List Char) : Except DecErr (Option (List String) × List Char) :=
  match skipWs input with
  | [] => .error .eofValue
  | c :: r =>
    if c = 'n' then
      match expectIdent ['u', 'l', 'l'] r with
      | .error e => .error e
      | .ok rest => .ok (none, rest)
    else if c = '[' then
      match parseStrList (r.length + 1) true r with
      | .error e => .error e
      | .ok (ss, rest) => .ok (some ss, rest)
    else .error (peekInvalidType (c :: r))

/-- Accumulator for the derived `Task` field visitor. -/
structure TAcc where
  name : Option String
  state : Option State
  tags : Option (Option (List String))
  secs : Option Int
  deriving Repr

/-- End of the task map: missing-field checks in declaration order, then the
task is built; `ts_seconds` deserialization yields a zero subsecond
component. -/
def finishTask (acc : TAcc) (rest : List Char) : Except DecErr (Task × List Char) :=
  match acc.name with
  | none => .error (.missingField "name")
  | some n =>
    match acc.state with
    | none => .error (.missingField "state")
    | some st =>
      match acc.tags with
      | none => .error (.missingField "tags")
      | some tg =>
        match acc.secs with
        | none => .error (.missingField "creted_at")
        | some s => .ok (⟨n, st, tg, ⟨s, 0⟩⟩, rest)

/-- Dispatch on one map key of a task object: the four known fields set the
accumulator (duplicates are Data errors), unknown keys are skipped via
`IgnoredAny`, i.e. a generic value parse. -/
def parseTaskField (k : String) (acc : TAcc) (input : List Char) :
    Except DecErr (TAcc × List Char) :=
  if k = "name" then
    if acc.name.isSome then .error (.duplicateField "name")
    else
      match parseNameValue input with
      | .error e => .error e
      | .ok (v, rest) => .ok ({ acc with name := some v }, rest)
  else if k = "state" then
    if acc.state.isSome then .error (.duplicateField "state")
    else
      match parseStateValue input with
      | .error e => .error e
      | .ok (v, rest) => .ok ({ acc with state := some v }, rest)
  else if k = "tags" then
    if acc.tags.isSome then .error (.duplicateField "tags")
    else
      match parseTagsValue input with
      | .error e => .error e
      | .ok (v, rest) => .ok ({ acc with tags := some v }, rest)
  else if k = "creted_at" then
    if acc.secs.isSome then .error (.duplicateField "creted_at")
    else
      match parseSecsValue input with
      | .error e => .error e
      | .ok (v, rest) => .ok ({ acc with secs := some v }, rest)
  else
    match parseValue (input.length + 1) input with
    | .error e => .error e
    | .ok (_, rest) => .ok (acc, rest)

def parseTaskFields : Nat → Bool → TAcc → List Char → Except DecErr (Task × List Char)
  | 0, _, _, _ => .error .outOfFuel
  | fuel + 1, first, acc, input =>
    match skipWs input with
    | [] => .error .eofObject
    | c :: r =>
      if first && c = '}' then finishTask acc r
      else if c = '"' then
        match parseStringBody (r.length + 1) [] r with
        | .error e => .error e
        | .ok (k, rest) =>
          match skipWs rest with
          | [] => .error .eofObject
          | c2 :: r2 =>
            if c2 = ':' then
              match parseTaskField k acc r2 with
              | .error e => .error e
              | .ok (acc2, rest2) =>
                match skipWs rest2 with
                | [] => .error .eofObject
                | c3 :: r3 =>
                  if c3 = '}' then finishTask acc2 r3
                  else if c3 = ',' then parseTaskFields fuel false acc2 r3
                  else .error .expectedObjectCommaOrEnd
            else .error .expectedColon
      else .error .keyMustBeString

def parseTask (input : List Char) : Except DecErr (Task × List Char) :=
  match skipWs input with
  | [] => .error .eofValue
  | c :: r =>
    if c = '{' then parseTaskFields (r.length + 1) true ⟨none, none, none, none⟩ r
    else .error (peekInvalidType (c :: r))

def parseElems : Nat → Bool → List Char → Except DecErr (List Task × List Char)
  | 0, _, _ => .error .outOfFuel
  | fuel + 1, first, input =>
    match skipWs input with
    | [] => .error .eofList
    | c :: r =>
      if first && c = ']' then .ok ([], r)
      else
        match parseTask (c :: r) with
        | .error e => .error e
        | .ok (t, rest) =>
          match skipWs rest with
          | [] => .error .eofList
          | c2 :: r2 =>
            if c2 = ']' then .ok ([t], r2)
            else if c2 = ',' then
              match parseElems fuel false r2 with
              | .error e => .error e
              | .ok (ts, rest2) => .ok (t :: ts, rest2)
            else .error .expectedListCommaOrEnd

/-- `serde_json::from_reader::<_, Vec<Task>>` over the file's full contents:
parse the array, then the deserializer's `end()` check rejects trailing
non-whitespace. -/
def parseTasksTop (input : List Char) : Except DecErr (List Task) :=
  match skipWs input with
  | [] => .error .eofValue
  | c :: r =>
    if c = '[' then
      match parseElems (r.length + 1) true r with
      | .error e => .error e
      | .ok (ts, rest) =>
        match skipWs rest with
        | [] => .ok ts
        | _ => .error .trailingCharacters
    else .error (peekInvalidType (c :: r))

def decodeTasks (s : String) : Except DecErr (List Task) :=
  parseTasksTop s.data

/-- `Task::_get_tasks` (src/task.rs lines 51-59): an `is_eof` decode error
yields the empty vector, any other decode error propagates. -/
def _get_tasks (s : String) : Except DecErr (List Task) :=
  match decodeTasks s with
  | .ok tasks => .ok tasks
  | .error err => if err.is_eof then .ok [] else .error err

/-! ## Serialization (`serde_json::to_writer`, src/task.rs lines 61-64) -/

def stateTag : State → String
  | .Active => "Active"
  | .Complete => "Complete"

def tagsJson : Option (List String) → Json
  | none => .null
  | some l => .arr (l.map .str)

/-- The serde field list of one task object, in declaration order.
`ts_seconds` serializes `creted_at.timestamp()`, the whole seconds. -/
def taskFields (t : Task) : List (String × Json) :=
  [("name", .str t.name),
   ("state", .obj [("type", .str (stateTag t.state))]),
   ("tags", tagsJson t.tags),
   ("creted_at", .num t.creted_at.secs)]

def joinComma : List (List Char) → List Char
  | [] => []
  | [x] => x
  | x :: y :: rest => x ++ ',' :: joinComma (y :: rest)

/-- Renderer for the innermost value shapes the serializer emits (string
elements inside the tags array and the state object); other shapes never
occur at that depth in output. -/
def renderLeaf : Json → List Char
  | .str s => renderString s
  | _ => []

/-- Renderer for the field values of a task object: `null`, integers,
strings, arrays of strings, and the one-level state object. -/
def renderValue1 : Json → List Char
  | .null => "null".data
  | .bool true => "true".data
  | .bool false => "false".data
  | .num n => renderInt n
  | .numF => []
  | .str s => renderString s
  | .arr xs => '[' :: joinComma (xs.map renderLeaf) ++ [']']
  | .obj fs =>
    '{' :: joinComma (fs.map (fun kv => renderString kv.1 ++ ':' :: renderLeaf kv.2)) ++ ['}']

def renderObj1 (fs : List (String × Json)) : List Char :=
  '{' :: joinComma (fs.map (fun kv => renderString kv.1 ++ ':' :: renderValue1 kv.2)) ++ ['}']

def renderTask (t : Task) : List Char :=
  renderObj1 (taskFields t)

def renderTasks (ts : List Task) : List Char :=
  '[' :: joinComma (ts.map renderTask) ++ [']']

/-- `Task::_write_tasks`: the compact JSON text written for a task vector. -/
def _write_tasks (ts : List Task) : String :=
  String.mk (renderTasks ts)

/-! ## The journal-store operations over an explicit backing file.

The file system is `Option String`: `none` is an absent file, `some s` a
file with contents `s`.  Each operation returns its result together with
the file state it leaves behind.  `OpenOptions::...open` with
`create(true)` materializes an absent file as `some ""` before reading;
a read-only open of an absent file is a NotFound I/O error. -/

inductive IoError
  | notFound
  | invalidInput
  | decode (e : DecErr)
  deriving DecidableEq, Repr

/-- `Task::add` (src/task.rs lines 75-102): open read/write with create,
load, push `Task::new`, truncate and write back.  `Utc::now()` is passed
in as `now`. -/
def Task.add (fs : Option String) (name : String) (tags : Option (List String))
    (now : DateTimeUtc) : Except IoError Unit × Option String :=
  let contents := fs.getD ""
  match _get_tasks contents with
  | .error e => (.error (.decode e), some contents)
  | .ok tasks => (.ok (), some (_write_tasks (tasks ++ [Task.new name tags now])))

/-- `Task::remove` (src/task.rs lines 112-146): open read-only (no create),
load, bounds-check `index == 0 || index > tasks.len()` before any deletion,
then erase position `index - 1` and write back; the error paths write
nothing. -/
def Task.remove (fs : Option String) (index : Nat) : Except IoError Unit × Option String :=
  match fs with
  | none => (.error .notFound, none)
  | some s =>
    match _get_tasks s with
    | .error e => (.error (.decode e), some s)
    | .ok tasks =>
      if index = 0 || tasks.length < index then (.error .invalidInput, some s)
      else (.ok (), some (_write_tasks (tasks.eraseIdx (index - 1))))

/-- What one `println!` of the list loop emits: the empty-journal notice
("Empty to-do list") or one task's display line. -/
inductive OutLine
  | emptyNotice
  | taskLine (t : Task)
  deriving DecidableEq, Repr

/-- `task.tags.as_ref().is_some_and(|tags| tags.contains(&tag))`. -/
def tagMatch (tag : String) (task : Task) : Bool :=
  match task.tags with
  | none => false
  | some tags => tags.contains tag

/-- The sequence of lines `Task::list` prints for a loaded task vector
(src/task.rs lines 170-195). -/
def listOutput (tasks : List Task) (tag : Option String) : List OutLine :=
  if tasks.isEmpty then [.emptyNotice]
  else
    match tag with
    | some tag => (tasks.filter (tagMatch tag)).map .taskLine
    | none => tasks.map .taskLine

/-- `Task::list` (src/task.rs lines 156-198): open read/write with create,
load, print. -/
def Task.list (fs : Option String) (tag : Option String) :
    Except IoError (List OutLine) × Option String :=
  let contents := fs.getD ""
  match _get_tasks contents with
  | .error e => (.error (.decode e), some contents)
  | .ok tasks => (.ok (listOutput tasks tag), some contents)

/-- The invariants every Rust `DateTime<Utc>` value of interest carries but
the looser Lean model does not bake in: a whole-second instant (what
`ts_seconds` decoding always produces) whose seconds fit in `i64` (the
chrono representation). -/
def WF (t : Task) : Prop :=
  t.creted_at.nanos = 0 ∧ -(2 ^ 63 : Int) ≤ t.creted_at.secs ∧ t.creted_at.secs < 2 ^ 63

instance (t : Task) : Decidable (WF t) := by unfold WF; infer_instance

/-- The task displayed by an output line, if it is a task line. -/
def lineTask : OutLine → Option Task
  | .emptyNotice => none
  | .taskLine t => some t

/-- The next character (if any) cannot extend a decimal digit run. -/
def headNotDigit : List Char → Bool
  | [] => true
  | c :: _ => !isDigit c

/-- The next character (if any) cannot extend a JSON number lexeme. -/
def numStop (l : List Char) : Bool :=
  match l with
  | [] => true
  | c :: _ => !(isDigit c || c = '.' || c = 'e' || c = 'E')

/-- Accumulated value of a digit run, as `parseDigits` folds it. -/
def digitsVal (acc : Nat) (ds : List Char) : Nat :=
  ds.foldl (fun a c => a * 10 + digitVal c) acc

/-! ## Lemmas: whitespace, digits, decimal integers -/

@[simp] theorem skipWs_cons_of (c : Char) (r : List Char) (h : isWs c = false) :
    skipWs (c :: r) = c :: r := by
  simp [skipWs, h]

theorem digitVal_decDigitOf (n : Nat) (h : n < 10) : digitVal (decDigitOf n) = n := by
  interval_cases n <;> rfl

theorem isDigit_decDigitOf (n : Nat) (h : n < 10) : isDigit (decDigitOf n) = true := by
  interval_cases n <;> rfl

theorem decDigitOf_ne_zero (n : Nat) (h1 : 1 ≤ n) (h2 : n < 10) : decDigitOf n ≠ '0' := by
  interval_cases n <;> decide

theorem hexVal_hexCharOf (n : Nat) (h : n < 16) : hexVal (hexCharOf n) = some n := by
  interval_cases n <;> rfl

theorem natToDigitsAux_acc (fuel : Nat) :
    ∀ n acc, n < 10 ^ fuel →
      natToDigitsAux fuel n acc = natToDigitsAux fuel n [] ++ acc := by
  induction fuel with
  | zero =>
    intro n acc h
    interval_cases n
    rfl
  | succ fuel ih =>
    intro n acc h
    by_cases h10 : n < 10
    · simp [natToDigitsAux, h10]
    · simp only [natToDigitsAux, if_neg h10]
      have hdiv : n / 10 < 10 ^ fuel := by
        rw [pow_succ] at h
        omega
      rw [ih (n / 10) (decDigitOf (n % 10) :: acc) hdiv,
        ih (n / 10) [decDigitOf (n % 10)] hdiv]
      simp

theorem lt_ten_pow (n : Nat) : n < 10 ^ n := by
  induction n with
  | zero => simp
  | succ n ih =>
    have : 10 ^ (n + 1) = 10 ^ n * 10 := pow_succ 10 n
    omega

theorem natToDigitsAux_irrel (n : Nat) :
    ∀ f1 f2, n < 10 ^ f1 → n < 10 ^ f2 → 1 ≤ f1 → 1 ≤ f2 →
      natToDigitsAux f1 n [] = natToDigitsAux f2 n [] := by
  induction n using Nat.strong_induction_on with
  | _ n ih =>
    intro f1 f2 h1 h2 hf1 hf2
    obtain ⟨g1, rfl⟩ : ∃ g, f1 = g + 1 := ⟨f1 - 1, by omega⟩
    obtain ⟨g2, rfl⟩ : ∃ g, f2 = g + 1 := ⟨f2 - 1, by omega⟩
    by_cases h10 : n < 10
    · simp [natToDigitsAux, h10]
    · simp only [natToDigitsAux, if_neg h10]
      have hg1 : n / 10 < 10 ^ g1 := by rw [pow_succ] at h1; omega
      have hg2 : n / 10 < 10 ^ g2 := by rw [pow_succ] at h2; omega
      have hgg1 : 1 ≤ g1 := by
        rcases Nat.eq_zero_or_pos g1 with hg | hg
        · subst hg; norm_num at h1; omega
        · exact hg
      have hgg2 : 1 ≤ g2 := by
        rcases Nat.eq_zero_or_pos g2 with hg | hg
        · subst hg; norm_num at h2; omega
        · exact hg
      rw [natToDigitsAux_acc g1 (n / 10) _ hg1, natToDigitsAux_acc g2 (n / 10) _ hg2,
        ih (n / 10) (Nat.div_lt_self (by omega) (by omega)) g1 g2 hg1 hg2 hgg1 hgg2]

theorem natToDigits_unfold (n : Nat) :
    natToDigits n =
      if n < 10 then [decDigitOf n] else natToDigits (n / 10) ++ [decDigitOf (n % 10)] := by
  by_cases h10 : n < 10
  · simp [natToDigits, natToDigitsAux, h10]
  · rw [if_neg h10]
    unfold natToDigits
    have h1 : natToDigitsAux (n + 1) n [] = natToDigitsAux n (n / 10) [decDigitOf (n % 10)] := by
      simp [natToDigitsAux, h10]
    have hdivlt : n / 10 < 10 ^ n :=
      lt_of_le_of_lt (Nat.div_le_self n 10) (lt_ten_pow n)
    rw [h1, natToDigitsAux_acc n (n / 10) _ hdivlt,
      natToDigitsAux_irrel (n / 10) n (n / 10 + 1) hdivlt
        (lt_of_lt_of_le (lt_ten_pow (n / 10)) (Nat.pow_le_pow_right (by omega) (by omega)))
        (by omega) (by omega)]

theorem natToDigits_ne_nil (n : Nat) : natToDigits n ≠ [] := by
  rw [natToDigits_unfold]
  split
  · simp
  · simp

theorem natToDigits_digits (n : Nat) : ∀ c ∈ natToDigits n, isDigit c = true := by
  induction n using Nat.strong_induction_on with
  | _ n ih =>
    rw [natToDigits_unfold]
    split
    case isTrue h =>
      intro c hc
      rw [List.mem_singleton] at hc
      subst hc
      exact isDigit_decDigitOf n h
    case isFalse h =>
      intro c hc
      rw [List.mem_append] at hc
      rcases hc with hc | hc
      · have hlt : n / 10 < n := Nat.div_lt_self (by omega) (by omega)
        exact ih (n / 10) hlt c hc
      · rw [List.mem_singleton] at hc
        subst hc
        exact isDigit_decDigitOf (n % 10) (Nat.mod_lt n (by omega))

theorem natToDigits_head (n : Nat) (h : n ≠ 0) :
    ∃ c l, natToDigits n = c :: l ∧ c ≠ '0' := by
  induction n using Nat.strong_induction_on with
  | _ n ih =>
    rw [natToDigits_unfold]
    split
    case isTrue h10 =>
      exact ⟨decDigitOf n, [], rfl, decDigitOf_ne_zero n (by omega) h10⟩
    case isFalse h10 =>
      obtain ⟨c, l, hcl, hc⟩ :=
        ih (n / 10) (Nat.div_lt_self (by omega) (by omega)) (by omega)
      exact ⟨c, l ++ [decDigitOf (n % 10)], by rw [hcl]; rfl, hc⟩

theorem parseDigits_append (ds : List Char) (hds : ∀ c ∈ ds, isDigit c = true)
    (acc : Nat) (rest : List Char) (hrest : headNotDigit rest = true) :
    parseDigits acc (ds ++ rest) = (digitsVal acc ds, rest) := by
  induction ds generalizing acc with
  | nil =>
    cases rest with
    | nil => rfl
    | cons c r =>
      have hc : isDigit c = false := by
        have := hrest
        unfold headNotDigit at this
        simpa using this
      simp [parseDigits, hc, digitsVal]
  | cons c ds ih =>
    have hc : isDigit c = true := hds c (by simp)
    simp only [List.cons_append, parseDigits, hc, if_pos, List.append_eq]
    rw [ih (fun d hd => hds d (by simp [hd])) _]
    simp [digitsVal]

theorem digitsVal_natToDigits (n : Nat) :
    ∀ acc, digitsVal acc (natToDigits n) = acc * 10 ^ (natToDigits n).length + n := by
  induction n using Nat.strong_induction_on with
  | _ n ih =>
    intro acc
    rw [natToDigits_unfold]
    split
    case isTrue h =>
      simp [digitsVal, digitVal_decDigitOf n h]
    case isFalse h =>
      rw [digitsVal, List.foldl_append]
      have hrec := ih (n / 10) (Nat.div_lt_self (by omega) (by omega)) acc
      rw [digitsVal] at hrec
      rw [hrec]
      simp only [List.foldl_cons, List.foldl_nil, List.length_append, List.length_singleton]
      rw [digitVal_decDigitOf (n % 10) (Nat.mod_lt n (by omega))]
      have : n = 10 * (n / 10) + n % 10 := (Nat.div_add_mod n 10).symm
      rw [pow_succ]
      ring_nf
      omega

theorem lexFloatTail_stop (rest : List Char) (h : numStop rest = true) :
    lexFloatTail rest = .ok rest := by
  cases rest with
  | nil => rfl
  | cons c r =>
    unfold numStop at h
    simp only [Bool.not_eq_true'] at h
    unfold lexFloatTail
    have h1 : (c = '.') = False := by
      simp only [Bool.or_eq_false_iff, decide_eq_false_iff_not] at h
      simp [h.1.1.2]
    have h2 : (c = 'e' || c = 'E') = false := by
      simp only [Bool.or_eq_false_iff, decide_eq_false_iff_not] at h
      simp [h.1.2, h.2]
    simp [h1, h2]

theorem numStop_not_digit (c : Char) (r : List Char) (h : numStop (c :: r) = true) :
    isDigit c = false := by
  unfold numStop at h
  simp only [Bool.not_eq_true', Bool.or_eq_false_iff] at h
  exact h.1.1.1

theorem numStop_headNotDigit (rest : List Char) (h : numStop rest = true) :
    headNotDigit rest = true := by
  cases rest with
  | nil => rfl
  | cons c r =>
    show (!isDigit c) = true
    rw [numStop_not_digit c r h]
    rfl

theorem isDigit_ne_dash (c : Char) (h : isDigit c = true) : c ≠ '-' := by
  intro he
  rw [he] at h
  exact absurd h (by decide)

theorem parseDigits_natToDigits (m : Nat) (rest : List Char)
    (hrest : headNotDigit rest = true) :
    parseDigits 0 (natToDigits m ++ rest) = (m, rest) := by
  rw [parseDigits_append (natToDigits m) (natToDigits_digits m) 0 rest hrest,
    digitsVal_natToDigits]
  simp

theorem natToDigits_cons (m : Nat) :
    ∃ d l, natToDigits m = d :: l ∧ isDigit d = true := by
  cases h : natToDigits m with
  | nil => exact absurd h (natToDigits_ne_nil m)
  | cons d l =>
    exact ⟨d, l, rfl, natToDigits_digits m d (by rw [h]; simp)⟩

theorem isDigit_not_ws (c : Char) (h : isDigit c = true) : isWs c = false := by
  unfold isWs
  simp only [Bool.or_eq_false_iff, decide_eq_false_iff_not]
  refine ⟨⟨⟨?_, ?_⟩, ?_⟩, ?_⟩ <;> intro he <;> rw [he] at h <;> exact absurd h (by decide)

theorem lexNumberCore_int (neg : Bool) (m : Nat) (hm : m < 2 ^ 64)
    (rest : List Char) (hstop : numStop rest = true) :
    lexNumberCore neg (natToDigits m ++ rest) =
      .ok (.num (if neg then -(m : Int) else (m : Int)), rest) := by
  have h00 : isDigit '0' = true := by decide
  by_cases hz : m = 0
  · subst hz
    have h0 : natToDigits 0 = ['0'] := rfl
    rw [h0]
    cases rest with
    | nil =>
      cases neg <;> simp [lexNumberCore, h00]
    | cons c2 r2 =>
      have hc2 : isDigit c2 = false := numStop_not_digit c2 r2 hstop
      have hft := lexFloatTail_stop (c2 :: r2) hstop
      cases neg <;> simp [lexNumberCore, h00, hc2, hft]
  · obtain ⟨d, l, hdl, hd0⟩ := natToDigits_head m hz
    have hdd : isDigit d = true := natToDigits_digits m d (by rw [hdl]; simp)
    have hp : parseDigits 0 (d :: (l ++ rest)) = (m, rest) := by
      have hsplit : d :: (l ++ rest) = natToDigits m ++ rest := by rw [hdl]; rfl
      rw [hsplit]
      exact parseDigits_natToDigits m rest (numStop_headNotDigit rest hstop)
    rw [hdl]
    simp only [List.cons_append]
    have hbig : ¬((2 : Nat) ^ 64 ≤ m) := by omega
    simp [lexNumberCore, hdd, hd0, hp, lexFloatTail_stop rest hstop, hbig]
    omega

theorem lexNumber_renderInt (n : Int) (hlo : -(2 ^ 63 : Int) ≤ n) (hhi : n < 2 ^ 63)
    (rest : List Char) (hstop : numStop rest = true) :
    lexNumber (renderInt n ++ rest) = .ok (.num n, rest) := by
  have habs : n.natAbs < 2 ^ 64 := by omega
  obtain ⟨d, l, hdl, hdd⟩ := natToDigits_cons n.natAbs
  by_cases hneg : n < 0
  · have hcore := lexNumberCore_int true n.natAbs habs rest hstop
    rw [hdl] at hcore
    simp only [List.cons_append, if_true] at hcore
    rw [show -((n.natAbs : Int)) = n from by omega] at hcore
    have hrend : renderInt n = '-' :: natToDigits n.natAbs := by
      unfold renderInt
      rw [if_pos hneg]
    rw [hrend, hdl]
    simp only [List.cons_append]
    simp only [lexNumber]
    rw [if_pos (by trivial)]
    exact hcore
  · have hcore := lexNumberCore_int false n.natAbs habs rest hstop
    rw [hdl] at hcore
    simp only [List.cons_append, if_false, Bool.false_eq_true] at hcore
    rw [show ((n.natAbs : Int)) = n from by omega] at hcore
    have hrend : renderInt n = natToDigits n.natAbs := by
      unfold renderInt
      rw [if_neg hneg]
    rw [hrend, hdl]
    simp only [List.cons_append]
    simp only [lexNumber]
    rw [if_neg (isDigit_ne_dash d hdd)]
    exact hcore

theorem parseSecsValue_renderInt (n : Int) (hlo : -(2 ^ 63 : Int) ≤ n) (hhi : n < 2 ^ 63)
    (rest : List Char) (hstop : numStop rest = true) :
    parseSecsValue (renderInt n ++ rest) = .ok (n, rest) := by
  have hlex := lexNumber_renderInt n hlo hhi rest hstop
  obtain ⟨d, l, hdl, hdd⟩ := natToDigits_cons n.natAbs
  by_cases hneg : n < 0
  · have hrend : renderInt n = '-' :: natToDigits n.natAbs := by
      unfold renderInt
      rw [if_pos hneg]
    rw [hrend] at hlex ⊢
    simp only [List.cons_append] at hlex ⊢
    have hcond : (decide ('-' = '-') || isDigit '-') = true := by decide
    simp only [parseSecsValue, skipWs_cons_of '-' _ (by decide)]
    simp only [hcond, if_true, hlex]
    exact if_pos (And.intro hlo hhi)
  · have hrend : renderInt n = natToDigits n.natAbs := by
      unfold renderInt
      rw [if_neg hneg]
    rw [hrend, hdl] at hlex ⊢
    simp only [List.cons_append] at hlex ⊢
    have hcond : (decide (d = '-') || isDigit d) = true := by simp [hdd]
    simp only [parseSecsValue, skipWs_cons_of d _ (isDigit_not_ws d hdd)]
    simp only [hcond, if_true, hlex]
    exact if_pos (And.intro hlo hhi)

/-! ## Lemmas: string escaping round-trips through the string parser -/

theorem stringMkData (s : String) : String.mk s.data = s := by
  cases s
  rfl

theorem escapeChar_length (c : Char) : 1 ≤ (escapeChar c).length := by
  unfold escapeChar
  split_ifs <;> simp

theorem escList_length (cs : List Char) : cs.length ≤ (escList cs).length := by
  induction cs with
  | nil => simp [escList]
  | cons c cs ih =>
    simp only [escList, List.length_append, List.length_cons]
    have := escapeChar_length c
    omega

theorem unescape1_u00 (c : Char) (hc : c.toNat < 32) (tail : List Char) :
    unescape1 ('u' :: '0' :: '0' :: hexCharOf (c.toNat / 16) ::
      hexCharOf (c.toNat % 16) :: tail) = .ok (c, tail) := by
  have hhex1 : hexVal (hexCharOf (c.toNat / 16)) = some (c.toNat / 16) :=
    hexVal_hexCharOf _ (by omega)
  have hhex2 : hexVal (hexCharOf (c.toNat % 16)) = some (c.toNat % 16) :=
    hexVal_hexCharOf _ (by omega)
  have h0 : hexVal '0' = some 0 := rfl
  simp [unescape1, h0, hhex1, hhex2]
  split_ifs with hs1 hs2
  · exact absurd hs1 (by omega)
  · exact absurd hs2 (by omega)
  · rw [show c.toNat / 16 * 16 + c.toNat % 16 = c.toNat from by omega, Char.ofNat_toNat]

theorem unescape1_quote (r : List Char) : unescape1 ('"' :: r) = .ok ('"', r) := rfl

theorem unescape1_backslash (r : List Char) : unescape1 ('\\' :: r) = .ok ('\\', r) := rfl

theorem unescape1_b (r : List Char) : unescape1 ('b' :: r) = .ok ('\x08', r) := rfl

theorem unescape1_t (r : List Char) : unescape1 ('t' :: r) = .ok ('\t', r) := rfl

theorem unescape1_n (r : List Char) : unescape1 ('n' :: r) = .ok ('\n', r) := rfl

theorem unescape1_f (r : List Char) : unescape1 ('f' :: r) = .ok ('\x0c', r) := rfl

theorem unescape1_r (r : List Char) : unescape1 ('r' :: r) = .ok ('\r', r) := rfl

theorem psb_end (k : Nat) (acc r : List Char) :
    parseStringBody (k + 1) acc ('"' :: r) = .ok (String.mk acc, r) := by
  simp [parseStringBody]

theorem psb_esc_step (k : Nat) (acc : List Char) (ch : Char) (r r2 : List Char)
    (hu : unescape1 r = .ok (ch, r2)) :
    parseStringBody (k + 1) acc ('\\' :: r) = parseStringBody k (acc ++ [ch]) r2 := by
  simp [parseStringBody, hu]

theorem psb_plain_step (k : Nat) (acc : List Char) (c : Char) (r : List Char)
    (h1 : c ≠ '"') (h2 : c ≠ '\\') (hc : ¬c.toNat < 32) :
    parseStringBody (k + 1) acc (c :: r) = parseStringBody k (acc ++ [c]) r := by
  simp only [parseStringBody]
  rw [if_neg h1, if_neg h2, if_neg hc]

theorem parseStringBody_escList (cs : List Char) :
    ∀ fuel acc rest, cs.length < fuel →
      parseStringBody fuel acc (escList cs ++ '"' :: rest) =
        .ok (String.mk (acc ++ cs), rest) := by
  induction cs with
  | nil =>
    intro fuel acc rest hfuel
    obtain ⟨k, rfl⟩ : ∃ k, fuel = k + 1 := ⟨fuel - 1, by omega⟩
    simp only [escList, List.nil_append]
    rw [psb_end]
    simp
  | cons c cs ih =>
    intro fuel acc rest hfuel
    obtain ⟨k, rfl⟩ : ∃ k, fuel = k + 1 := ⟨fuel - 1, by omega⟩
    have hk : cs.length < k := by
      simp only [List.length_cons] at hfuel
      omega
    have hstep : escList (c :: cs) ++ '"' :: rest =
        escapeChar c ++ (escList cs ++ '"' :: rest) := by
      simp [escList]
    rw [hstep]
    by_cases h1 : c = '"'
    · subst h1
      rw [show escapeChar '"' = ['\\', '"'] from by simp [escapeChar]]
      show parseStringBody (k + 1) acc ('\\' :: ('"' :: (escList cs ++ '"' :: rest))) = _
      rw [psb_esc_step k acc '"' _ _ (unescape1_quote _), ih k _ rest hk]
      simp
    · by_cases h2 : c = '\\'
      · subst h2
        rw [show escapeChar '\\' = ['\\', '\\'] from by simp [escapeChar]]
        show parseStringBody (k + 1) acc ('\\' :: ('\\' :: (escList cs ++ '"' :: rest))) = _
        rw [psb_esc_step k acc '\\' _ _ (unescape1_backslash _), ih k _ rest hk]
        simp
      · by_cases hb : c = '\x08'
        · subst hb
          rw [show escapeChar '\x08' = ['\\', 'b'] from by simp [escapeChar]]
          show parseStringBody (k + 1) acc ('\\' :: ('b' :: (escList cs ++ '"' :: rest))) = _
          rw [psb_esc_step k acc '\x08' _ _ (unescape1_b _), ih k _ rest hk]
          simp
        · by_cases ht : c = '\t'
          · subst ht
            rw [show escapeChar '\t' = ['\\', 't'] from by simp [escapeChar]]
            show parseStringBody (k + 1) acc ('\\' :: ('t' :: (escList cs ++ '"' :: rest))) = _
            rw [psb_esc_step k acc '\t' _ _ (unescape1_t _), ih k _ rest hk]
            simp
          · by_cases hn : c = '\n'
            · subst hn
              rw [show escapeChar '\n' = ['\\', 'n'] from by simp [escapeChar]]
              show parseStringBody (k + 1) acc ('\\' :: ('n' :: (escList cs ++ '"' :: rest))) = _
              rw [psb_esc_step k acc '\n' _ _ (unescape1_n _), ih k _ rest hk]
              simp
            · by_cases hf : c = '\x0c'
              · subst hf
                rw [show escapeChar '\x0c' = ['\\', 'f'] from by simp [escapeChar]]
                show parseStringBody (k + 1) acc ('\\' :: ('f' :: (escList cs ++ '"' :: rest))) = _
                rw [psb_esc_step k acc '\x0c' _ _ (unescape1_f _), ih k _ rest hk]
                simp
              · by_cases hcr : c = '\r'
                · subst hcr
                  rw [show escapeChar '\r' = ['\\', 'r'] from by simp [escapeChar]]
                  show parseStringBody (k + 1) acc ('\\' :: ('r' :: (escList cs ++ '"' :: rest))) = _
                  rw [psb_esc_step k acc '\r' _ _ (unescape1_r _), ih k _ rest hk]
                  simp
                · by_cases hc : c.toNat < 32
                  · rw [show escapeChar c =
                        '\\' :: 'u' :: '0' :: '0' :: hexCharOf (c.toNat / 16) ::
                          [hexCharOf (c.toNat % 16)] from by
                      simp [escapeChar, h1, h2, hb, ht, hn, hf, hcr, hc]]
                    show parseStringBody (k + 1) acc
                        ('\\' :: ('u' :: '0' :: '0' :: hexCharOf (c.toNat / 16) ::
                          hexCharOf (c.toNat % 16) :: (escList cs ++ '"' :: rest))) = _
                    rw [psb_esc_step k acc c _ _ (unescape1_u00 c hc _), ih k _ rest hk]
                    simp
                  · rw [show escapeChar c = [c] from by
                      simp [escapeChar, h1, h2, hb, ht, hn, hf, hcr, hc]]
                    show parseStringBody (k + 1) acc (c :: (escList cs ++ '"' :: rest)) = _
                    rw [psb_plain_step k acc c _ h1 h2 hc, ih k _ rest hk]
                    simp

/-- The composed form the renderer emits. -/
theorem parseStringBody_renderString (s : String) (fuel : Nat) (rest : List Char)
    (hfuel : s.data.length < fuel) :
    parseStringBody fuel [] (escapeString s ++ '"' :: rest) = .ok (s, rest) := by
  rw [escapeString, parseStringBody_escList s.data fuel [] rest hfuel]
  rw [List.nil_append, stringMkData]

/-! ## Lemmas: rendered field values parse back -/

theorem renderString_cons (s : String) (rest : List Char) :
    renderString s ++ rest = '"' :: (escapeString s ++ '"' :: rest) := by
  simp [renderString]

theorem parseValue_str (fuel : Nat) (s : String) (rest : List Char) :
    parseValue (fuel + 1) ('"' :: (escapeString s ++ '"' :: rest)) = .ok (.str s, rest) := by
  have hlen : s.data.length < (escapeString s ++ '"' :: rest).length + 1 := by
    have := escList_length s.data
    simp only [escapeString, List.length_append, List.length_cons]
    omega
  have hp := parseStringBody_renderString s ((escapeString s ++ '"' :: rest).length + 1) rest hlen
  simp only [List.length_append, List.length_cons] at hp
  simp only [parseValue]
  rw [skipWs_cons_of '"' _ (by decide)]
  simp [hp, show isDigit '"' = false from by decide]

theorem parseNameValue_render (s : String) (rest : List Char) :
    parseNameValue (renderString s ++ rest) = .ok (s, rest) := by
  rw [renderString_cons]
  have hlen : s.data.length < (escapeString s ++ '"' :: rest).length + 1 := by
    have := escList_length s.data
    simp only [escapeString, List.length_append, List.length_cons]
    omega
  have hp := parseStringBody_renderString s ((escapeString s ++ '"' :: rest).length + 1) rest hlen
  simp only [List.length_append, List.length_cons] at hp
  simp only [parseNameValue]
  rw [skipWs_cons_of '"' _ (by decide)]
  simp [hp]

theorem parseObjPairs_single (k : Nat) (key v : String) (rest : List Char) :
    parseObjPairs (k + 2) true
      ('"' :: (escapeString key ++ '"' :: ':' :: ('"' :: (escapeString v ++ '"' :: '}' :: rest)))) =
      .ok ([(key, .str v)], rest) := by
  have hklen : key.data.length <
      (escapeString key ++ '"' :: ':' :: ('"' :: (escapeString v ++ '"' :: '}' :: rest))).length + 1 := by
    have := escList_length key.data
    simp only [escapeString, List.length_append, List.length_cons]
    omega
  have hkey := parseStringBody_renderString key
    ((escapeString key ++ '"' :: ':' :: ('"' :: (escapeString v ++ '"' :: '}' :: rest))).length + 1)
    (':' :: ('"' :: (escapeString v ++ '"' :: '}' :: rest))) hklen
  have hval := parseValue_str k v ('}' :: rest)
  simp only [List.length_append, List.length_cons] at hkey
  simp only [parseObjPairs]
  rw [skipWs_cons_of '"' _ (by decide)]
  simp [hkey, hval, isWs]

theorem stateFromPairs_tag (v : String) :
    stateFromPairs [("type", .str v)] =
      (if v = "Active" then .ok .Active
       else if v = "Complete" then .ok .Complete
       else .error .unknownVariant) := by
  by_cases h1 : v = "Active"
  · subst h1; rfl
  · by_cases h2 : v = "Complete"
    · subst h2; rfl
    · rw [if_neg h1, if_neg h2]
      simp [stateFromPairs, h1, h2]

theorem parseStateValue_obj (r : List Char) :
    parseStateValue ('{' :: r) =
      (match parseObjPairs (r.length + 1) true r with
       | .error e => .error e
       | .ok (pairs, rest2) =>
         match stateFromPairs pairs with
         | .error e => .error e
         | .ok st => .ok (st, rest2)) := rfl

theorem parseStateValue_render (st : State) (rest : List Char) :
    parseStateValue (renderValue1 (.obj [("type", .str (stateTag st))]) ++ rest) =
      .ok (st, rest) := by
  have hshape : renderValue1 (.obj [("type", .str (stateTag st))]) ++ rest =
      '{' :: ('"' :: (escapeString "type" ++ '"' :: ':' ::
        ('"' :: (escapeString (stateTag st) ++ '"' :: '}' :: rest)))) := by
    simp [renderValue1, joinComma, renderLeaf, renderString, escapeString]
  rw [hshape, parseStateValue_obj]
  rw [show ('"' :: (escapeString "type" ++ '"' :: ':' ::
      ('"' :: (escapeString (stateTag st) ++ '"' :: '}' :: rest)))).length + 1 =
    (escapeString "type" ++ '"' :: ':' ::
      ('"' :: (escapeString (stateTag st) ++ '"' :: '}' :: rest))).length + 2 from by
    simp]
  rw [parseObjPairs_single]
  cases st <;> rfl

theorem renderString_length (s : String) : 2 ≤ (renderString s).length := by
  simp [renderString]

theorem joinComma_renderString_length (l : List String) :
    l.length ≤ (joinComma (l.map renderString)).length := by
  induction l with
  | nil => exact Nat.zero_le _
  | cons s l ih =>
    cases l with
    | nil =>
      simp only [List.map_cons, List.map_nil, joinComma, List.length_cons, List.length_nil]
      have := renderString_length s
      omega
    | cons s2 l2 =>
      simp only [List.map_cons, joinComma, List.length_append, List.length_cons]
      simp only [List.map_cons, List.length_cons] at ih
      have := renderString_length s
      omega

theorem parseStrList_renderStrings (l : List String) :
    ∀ fuel b rest, l ≠ [] → l.length ≤ fuel →
      parseStrList fuel b (joinComma (l.map renderString) ++ ']' :: rest) = .ok (l, rest) := by
  induction l with
  | nil =>
    intro fuel b rest h
    exact absurd rfl h
  | cons s l ih =>
    intro fuel b rest _ hfuel
    obtain ⟨k, rfl⟩ : ∃ k, fuel = k + 1 := ⟨fuel - 1, by
      simp only [List.length_cons] at hfuel
      omega⟩
    cases l with
    | nil =>
      have hshape : joinComma ([s].map renderString) ++ ']' :: rest =
          '"' :: (escapeString s ++ '"' :: (']' :: rest)) := by
        simp [joinComma, renderString]
      rw [hshape]
      have hp : parseStringBody ((escapeString s ++ '"' :: (']' :: rest)).length + 1) []
          (escapeString s ++ '"' :: (']' :: rest)) = .ok (s, ']' :: rest) :=
        parseStringBody_renderString _ _ _ (by
          have := escList_length s.data
          simp only [escapeString, List.length_append, List.length_cons]
          omega)
      simp only [List.length_append, List.length_cons] at hp
      cases b <;> simp [parseStrList, hp, isWs]
    | cons s2 l2 =>
      have hne2 : (s2 :: l2) ≠ [] := by simp
      have hfuel2 : (s2 :: l2).length ≤ k := by
        simp only [List.length_cons] at hfuel ⊢
        omega
      have hshape : joinComma ((s :: s2 :: l2).map renderString) ++ ']' :: rest =
          '"' :: (escapeString s ++ '"' ::
            (',' :: (joinComma ((s2 :: l2).map renderString) ++ ']' :: rest))) := by
        simp [joinComma, renderString]
      rw [hshape]
      have hp : parseStringBody
          ((escapeString s ++ '"' ::
            (',' :: (joinComma ((s2 :: l2).map renderString) ++ ']' :: rest))).length + 1) []
          (escapeString s ++ '"' ::
            (',' :: (joinComma ((s2 :: l2).map renderString) ++ ']' :: rest))) =
          .ok (s, ',' :: (joinComma ((s2 :: l2).map renderString) ++ ']' :: rest)) :=
        parseStringBody_renderString _ _ _ (by
          have := escList_length s.data
          simp only [escapeString, List.length_append, List.length_cons]
          omega)
      simp only [List.length_append, List.length_cons] at hp
      have hrec := ih k false rest hne2 hfuel2
      simp only [List.map_cons] at hp hrec
      cases b <;> simp [parseStrList, hp, isWs, hrec]

theorem mapRenderLeaf_str (l : List String) :
    (l.map Json.str).map renderLeaf = l.map renderString := by
  rw [List.map_map]
  rfl

theorem parseTagsValue_render (tg : Option (List String)) (rest : List Char) :
    parseTagsValue (renderValue1 (tagsJson tg) ++ rest) = .ok (tg, rest) := by
  cases tg with
  | none => rfl
  | some l =>
    have hshape : renderValue1 (tagsJson (some l)) ++ rest =
        '[' :: (joinComma (l.map renderString) ++ ']' :: rest) := by
      simp only [tagsJson, renderValue1, mapRenderLeaf_str, List.cons_append, List.append_assoc]
      rfl
    rw [hshape]
    cases l with
    | nil => rfl
    | cons s l2 =>
      have hlen : (s :: l2).length ≤
          (joinComma ((s :: l2).map renderString) ++ ']' :: rest).length + 1 := by
        have h1 := joinComma_renderString_length (s :: l2)
        have h2 : (joinComma ((s :: l2).map renderString)).length ≤
            (joinComma ((s :: l2).map renderString) ++ ']' :: rest).length := by
          simp
        omega
      have hp := parseStrList_renderStrings (s :: l2)
        ((joinComma ((s :: l2).map renderString) ++ ']' :: rest).length + 1) true rest
        (by simp) hlen
      simp only [List.length_append, List.length_cons, List.map_cons] at hp
      simp only [parseTagsValue]
      rw [skipWs_cons_of '[' _ (by decide)]
      simp [hp]

/-! ## Lemmas: a rendered task object parses back -/

theorem parseTaskField_name (acc : TAcc) (hacc : acc.name = none)
    (input : List Char) (out : String) (rest2 : List Char)
    (hv : parseNameValue input = .ok (out, rest2)) :
    parseTaskField "name" acc input = .ok ({ acc with name := some out }, rest2) := by
  simp [parseTaskField, hacc, hv]

theorem parseTaskField_state (acc : TAcc) (hacc : acc.state = none)
    (input : List Char) (out : State) (rest2 : List Char)
    (hv : parseStateValue input = .ok (out, rest2)) :
    parseTaskField "state" acc input = .ok ({ acc with state := some out }, rest2) := by
  simp [parseTaskField, hacc, hv]

theorem parseTaskField_tags (acc : TAcc) (hacc : acc.tags = none)
    (input : List Char) (out : Option (List String)) (rest2 : List Char)
    (hv : parseTagsValue input = .ok (out, rest2)) :
    parseTaskField "tags" acc input = .ok ({ acc with tags := some out }, rest2) := by
  simp [parseTaskField, hacc, hv]

theorem parseTaskField_creted (acc : TAcc) (hacc : acc.secs = none)
    (input : List Char) (out : Int) (rest2 : List Char)
    (hv : parseSecsValue input = .ok (out, rest2)) :
    parseTaskField "creted_at" acc input = .ok ({ acc with secs := some out }, rest2) := by
  simp [parseTaskField, hacc, hv]

theorem parseTask_obj (r : List Char) :
    parseTask ('{' :: r) = parseTaskFields (r.length + 1) true ⟨none, none, none, none⟩ r := rfl

theorem ptf_step_comma (k : Nat) (first : Bool) (acc acc2 : TAcc) (key : String)
    (X tail2 : List Char)
    (hfield : parseTaskField key acc X = .ok (acc2, ',' :: tail2)) :
    parseTaskFields (k + 1) first acc ('"' :: (escapeString key ++ '"' :: ':' :: X)) =
      parseTaskFields k false acc2 tail2 := by
  have hkey : parseStringBody ((escapeString key ++ '"' :: ':' :: X).length + 1) []
      (escapeString key ++ '"' :: ':' :: X) = .ok (key, ':' :: X) :=
    parseStringBody_renderString _ _ _ (by
      have := escList_length key.data
      simp only [escapeString, List.length_append, List.length_cons]
      omega)
  simp only [List.length_append, List.length_cons] at hkey
  simp only [parseTaskFields]
  rw [skipWs_cons_of '"' _ (by decide)]
  simp [hkey, hfield, isWs]

theorem ptf_step_close (k : Nat) (first : Bool) (acc acc2 : TAcc) (key : String)
    (X tail2 : List Char)
    (hfield : parseTaskField key acc X = .ok (acc2, '}' :: tail2)) :
    parseTaskFields (k + 1) first acc ('"' :: (escapeString key ++ '"' :: ':' :: X)) =
      finishTask acc2 tail2 := by
  have hkey : parseStringBody ((escapeString key ++ '"' :: ':' :: X).length + 1) []
      (escapeString key ++ '"' :: ':' :: X) = .ok (key, ':' :: X) :=
    parseStringBody_renderString _ _ _ (by
      have := escList_length key.data
      simp only [escapeString, List.length_append, List.length_cons]
      omega)
  simp only [List.length_append, List.length_cons] at hkey
  simp only [parseTaskFields]
  rw [skipWs_cons_of '"' _ (by decide)]
  simp [hkey, hfield, isWs]

theorem parseTask_render (t : Task) (hwf : WF t) (rest : List Char) :
    parseTask (renderTask t ++ rest) = .ok (t, rest) := by
  obtain ⟨hn, hlo, hhi⟩ := hwf
  rcases t with ⟨name, state, tags, ⟨secs, nanos⟩⟩
  simp only at hn hlo hhi
  subst hn
  have hshape : renderTask ⟨name, state, tags, ⟨secs, 0⟩⟩ ++ rest =
      '{' :: ('"' :: (escapeString "name" ++ '"' :: ':' ::
        (renderString name ++ ',' :: ('"' :: (escapeString "state" ++ '"' :: ':' ::
          (renderValue1 (.obj [("type", .str (stateTag state))]) ++ ',' ::
        ('"' :: (escapeString "tags" ++ '"' :: ':' ::
          (renderValue1 (tagsJson tags) ++ ',' ::
        ('"' :: (escapeString "creted_at" ++ '"' :: ':' ::
          (renderInt secs ++ '}' :: rest)))))))))))) := by
    simp only [renderTask, renderObj1, taskFields, List.map_cons, List.map_nil, joinComma,
      renderString, renderValue1, List.cons_append, List.nil_append, List.append_assoc]
  rw [hshape, parseTask_obj]
  have hv1 := parseNameValue_render name (',' :: ('"' :: (escapeString "state" ++ '"' :: ':' ::
          (renderValue1 (.obj [("type", .str (stateTag state))]) ++ ',' ::
        ('"' :: (escapeString "tags" ++ '"' :: ':' ::
          (renderValue1 (tagsJson tags) ++ ',' ::
        ('"' :: (escapeString "creted_at" ++ '"' :: ':' ::
          (renderInt secs ++ '}' :: rest))))))))))
  have hv2 := parseStateValue_render state (',' :: ('"' :: (escapeString "tags" ++ '"' :: ':' ::
          (renderValue1 (tagsJson tags) ++ ',' ::
        ('"' :: (escapeString "creted_at" ++ '"' :: ':' ::
          (renderInt secs ++ '}' :: rest)))))))
  have hv3 := parseTagsValue_render tags (',' :: ('"' :: (escapeString "creted_at" ++ '"' :: ':' ::
          (renderInt secs ++ '}' :: rest))))
  have hv4 : parseSecsValue (renderInt secs ++ '}' :: rest) = .ok (secs, '}' :: rest) :=
    parseSecsValue_renderInt secs hlo hhi ('}' :: rest) rfl
  have hf1 := parseTaskField_name ⟨none, none, none, none⟩ rfl _ _ _ hv1
  have hf2 := parseTaskField_state ⟨some name, none, none, none⟩ rfl _ _ _ hv2
  have hf3 := parseTaskField_tags ⟨some name, some state, none, none⟩ rfl _ _ _ hv3
  have hf4 := parseTaskField_creted ⟨some name, some state, some tags, none⟩ rfl _ _ _ hv4
  have hge : 4 ≤ (('"' :: (escapeString "name" ++ '"' :: ':' ::
        (renderString name ++ ',' :: ('"' :: (escapeString "state" ++ '"' :: ':' ::
          (renderValue1 (.obj [("type", .str (stateTag state))]) ++ ',' ::
        ('"' :: (escapeString "tags" ++ '"' :: ':' ::
          (renderValue1 (tagsJson tags) ++ ',' ::
        ('"' :: (escapeString "creted_at" ++ '"' :: ':' ::
          (renderInt secs ++ '}' :: rest))))))))))))).length + 1 := by
    have := renderString_length name
    simp only [List.length_cons, List.length_append]
    omega
  obtain ⟨k, hk⟩ := Nat.exists_eq_add_of_le hge
  rw [show (4 : Nat) + k = k + 4 from Nat.add_comm 4 k] at hk
  rw [hk]
  rw [show (k + 4) = (k + 3) + 1 from rfl]
  rw [ptf_step_comma (k + 3) true _ _ "name" _ _ hf1]
  rw [show (k + 3) = (k + 2) + 1 from rfl]
  rw [ptf_step_comma (k + 2) false _ _ "state" _ _ hf2]
  rw [show (k + 2) = (k + 1) + 1 from rfl]
  rw [ptf_step_comma (k + 1) false _ _ "tags" _ _ hf3]
  rw [ptf_step_close k false _ _ "creted_at" _ _ hf4]
  rfl

/-! ## Lemmas: a rendered task vector decodes back -/

theorem renderTask_cons (t : Task) : ∃ rt, renderTask t = '{' :: rt := ⟨_, rfl⟩

theorem renderTask_length (t : Task) : 1 ≤ (renderTask t).length := by
  obtain ⟨rt, hrt⟩ := renderTask_cons t
  simp [hrt]

theorem joinComma_renderTask_length (ts : List Task) :
    ts.length ≤ (joinComma (ts.map renderTask)).length := by
  induction ts with
  | nil => exact Nat.zero_le _
  | cons t ts ih =>
    cases ts with
    | nil =>
      simp only [List.map_cons, List.map_nil, joinComma, List.length_cons, List.length_nil]
      have := renderTask_length t
      omega
    | cons t2 ts2 =>
      simp only [List.map_cons, joinComma, List.length_append, List.length_cons]
      simp only [List.map_cons, List.length_cons] at ih
      have := renderTask_length t
      omega

theorem parseElems_render (ts : List Task) :
    ∀ fuel b rest, ts ≠ [] → (∀ t ∈ ts, WF t) → ts.length ≤ fuel →
      parseElems fuel b (joinComma (ts.map renderTask) ++ ']' :: rest) = .ok (ts, rest) := by
  induction ts with
  | nil =>
    intro fuel b rest h
    exact absurd rfl h
  | cons t ts ih =>
    intro fuel b rest _ hwf hfuel
    obtain ⟨k, rfl⟩ : ∃ k, fuel = k + 1 := ⟨fuel - 1, by
      simp only [List.length_cons] at hfuel
      omega⟩
    have hwt : WF t := hwf t (by simp)
    obtain ⟨rt, hrt⟩ := renderTask_cons t
    cases ts with
    | nil =>
      have hshape : joinComma ([t].map renderTask) ++ ']' :: rest =
          '{' :: (rt ++ ']' :: rest) := by
        simp [joinComma, hrt]
      rw [hshape]
      have hp : parseTask ('{' :: (rt ++ ']' :: rest)) = .ok (t, ']' :: rest) := by
        rw [← List.cons_append, ← hrt]
        exact parseTask_render t hwt _
      cases b <;> simp [parseElems, hp, isWs]
    | cons t2 ts2 =>
      have hne2 : (t2 :: ts2) ≠ [] := by simp
      have hwf2 : ∀ u ∈ (t2 :: ts2), WF u := fun u hu => hwf u (by simp [hu])
      have hfuel2 : (t2 :: ts2).length ≤ k := by
        simp only [List.length_cons] at hfuel ⊢
        omega
      have hshape : joinComma ((t :: t2 :: ts2).map renderTask) ++ ']' :: rest =
          '{' :: (rt ++ ',' :: (joinComma ((t2 :: ts2).map renderTask) ++ ']' :: rest)) := by
        simp [joinComma, hrt]
      rw [hshape]
      have hp : parseTask ('{' :: (rt ++ ',' ::
          (joinComma ((t2 :: ts2).map renderTask) ++ ']' :: rest))) =
          .ok (t, ',' :: (joinComma ((t2 :: ts2).map renderTask) ++ ']' :: rest)) := by
        rw [← List.cons_append, ← hrt]
        exact parseTask_render t hwt _
      have hrec := ih k false rest hne2 hwf2 hfuel2
      simp only [List.map_cons] at hp hrec
      cases b <;> simp [parseElems, hp, isWs, hrec]

theorem decodeTasks_write (ts : List Task) (hwf : ∀ t ∈ ts, WF t) :
    decodeTasks (_write_tasks ts) = .ok ts := by
  show parseTasksTop (renderTasks ts) = .ok ts
  cases ts with
  | nil => rfl
  | cons t ts2 =>
    have hshape : renderTasks (t :: ts2) =
        '[' :: (joinComma ((t :: ts2).map renderTask) ++ ']' :: []) := by
      simp [renderTasks]
    rw [hshape]
    simp only [parseTasksTop]
    rw [skipWs_cons_of '[' _ (by decide)]
    have hlen : (t :: ts2).length ≤
        (joinComma ((t :: ts2).map renderTask) ++ ']' :: []).length + 1 := by
      have h1 := joinComma_renderTask_length (t :: ts2)
      have h2 : (joinComma ((t :: ts2).map renderTask)).length ≤
          (joinComma ((t :: ts2).map renderTask) ++ ']' :: []).length := by
        simp
      omega
    have hp := parseElems_render (t :: ts2)
      ((joinComma ((t :: ts2).map renderTask) ++ ']' :: []).length + 1) true []
      (by simp) hwf hlen
    simp only [List.length_append, List.length_cons, List.length_nil, List.map_cons] at hp
    simp [hp, skipWs]

theorem get_tasks_write (ts : List Task) (hwf : ∀ t ∈ ts, WF t) :
    _get_tasks (_write_tasks ts) = .ok ts := by
  simp [_get_tasks, decodeTasks_write ts hwf]

/-! ## Claim theorems -/

/-- C1: for a well-formed persisted journal of length N, `Task::remove`
succeeds exactly for 1 ≤ i ≤ N, deleting exactly the element at 1-based
position i and persisting the other elements in their original order
(length N-1); for i = 0 or i > N it fails with the invalid-index error and
the persisted file is unchanged (nothing is written on the error path). -/
theorem C1_remove_bounds (tasks : List Task) (i : Nat) (hwf : ∀ t ∈ tasks, WF t) :
    (1 ≤ i ∧ i ≤ tasks.length →
      Task.remove (some (_write_tasks tasks)) i =
        (.ok (), some (_write_tasks (tasks.take (i - 1) ++ tasks.drop i))) ∧
      (tasks.take (i - 1) ++ tasks.drop i).length = tasks.length - 1) ∧
    ((i = 0 ∨ tasks.length < i) →
      Task.remove (some (_write_tasks tasks)) i =
        (.error .invalidInput, some (_write_tasks tasks))) := by
  have hg := get_tasks_write tasks hwf
  constructor
  · rintro ⟨h1, h2⟩
    have hc1 : ¬(i = 0) := by omega
    have hc2 : ¬(tasks.length < i) := by omega
    constructor
    · have herase : tasks.eraseIdx (i - 1) = tasks.take (i - 1) ++ tasks.drop i := by
        rw [List.eraseIdx_eq_take_drop_succ]
        congr 1
        congr 1
        omega
      simp [Task.remove, hg, hc1, hc2, herase]
    · simp only [List.length_append, List.length_take, List.length_drop]
      omega
  · intro h
    have hcond : (decide (i = 0) || decide (tasks.length < i)) = true := by
      rcases h with h | h
      · simp [h]
      · simp [h]
    simp [Task.remove, hg, hcond]

/-- C1 witness at a concrete two-element journal, index 1. -/
theorem C1_remove_bounds_witness :
    Task.remove (some (_write_tasks [Task.new "a" none ⟨1, 0⟩, Task.new "b" none ⟨2, 0⟩])) 1 =
      (.ok (), some (_write_tasks
        ([Task.new "a" none ⟨1, 0⟩, Task.new "b" none ⟨2, 0⟩].take (1 - 1) ++
         [Task.new "a" none ⟨1, 0⟩, Task.new "b" none ⟨2, 0⟩].drop 1))) :=
  ((C1_remove_bounds [Task.new "a" none ⟨1, 0⟩, Task.new "b" none ⟨2, 0⟩] 1
    (by decide)).1 ⟨by decide, by decide⟩).1

/-- C2 counterexample: the input "[" is not syntactically empty and is
malformed JSON, yet `_get_tasks` yields the empty vector instead of
propagating the decode failure (its error is classified end-of-input). -/
theorem C2_counterexample :
    _get_tasks "[" = .ok [] ∧ decodeTasks "[" = .error .eofList ∧ ("[" : String) ≠ "" := by
  refine ⟨rfl, rfl, by decide⟩

/-- C2 (amended): decoding yields the empty sequence for empty input and
for every input whose decode fails with an end-of-input error (truncated
JSON is silently treated as an empty journal); decode failures that are
not end-of-input are propagated unchanged, and successful decodes are
returned as is. -/
theorem C2_eof_handling :
    _get_tasks "" = .ok [] ∧
    (∀ s e, decodeTasks s = .error e → e.is_eof = false → _get_tasks s = .error e) ∧
    (∀ s ts, decodeTasks s = .ok ts → _get_tasks s = .ok ts) ∧
    (∀ s e, decodeTasks s = .error e → e.is_eof = true → _get_tasks s = .ok []) := by
  refine ⟨rfl, ?_, ?_, ?_⟩
  · intro s e h hf
    simp [_get_tasks, h, hf]
  · intro s ts h
    simp [_get_tasks, h]
  · intro s e h hf
    simp [_get_tasks, h, hf]

/-- C2 witness: a non-eof decode failure propagates; a valid decode is
returned. -/
theorem C2_eof_handling_witness :
    _get_tasks "null" = .error .invalidType ∧ _get_tasks "[]" = .ok [] :=
  ⟨C2_eof_handling.2.1 "null" .invalidType rfl rfl,
   C2_eof_handling.2.2.1 "[]" [] rfl⟩

/-- C3 counterexample: a task whose `created_at` carries a subsecond
component round-trips to a DIFFERENT task (the `ts_seconds` encoding stores
whole seconds only), so the round-trip is not lossless for every sequence. -/
theorem C3_counterexample :
    decodeTasks (_write_tasks [⟨"a", .Active, none, ⟨0, 1⟩⟩]) =
      .ok [⟨"a", .Active, none, ⟨0, 0⟩⟩] ∧
    (⟨"a", .Active, none, ⟨0, 0⟩⟩ : Task) ≠ ⟨"a", .Active, none, ⟨0, 1⟩⟩ := by
  refine ⟨rfl, by decide⟩

/-- C3 (amended): encoding then decoding yields an equal sequence (same
length, order and field values) for every sequence of tasks whose
`created_at` is a whole-second instant with `i64`-representable seconds —
the invariant every decoded journal and every chrono value satisfies. -/
theorem C3_roundtrip (ts : List Task) (hwf : ∀ t ∈ ts, WF t) :
    decodeTasks (_write_tasks ts) = .ok ts :=
  decodeTasks_write ts hwf

/-- C3 witness at a concrete two-element vector. -/
theorem C3_roundtrip_witness :
    decodeTasks (_write_tasks [Task.new "buy milk" (some ["errand"]) ⟨100, 0⟩,
      Task.new "b" none ⟨-5, 0⟩]) =
      .ok [Task.new "buy milk" (some ["errand"]) ⟨100, 0⟩, Task.new "b" none ⟨-5, 0⟩] :=
  C3_roundtrip _ (by decide)

/-- C4 counterexample: `Task::remove` on an absent backing file fails with
the not-found I/O error from its read-only open (no create flag), not with
the invalid-index condition. -/
theorem C4_counterexample :
    Task.remove none 1 = (.error .notFound, none) ∧
    IoError.notFound ≠ IoError.invalidInput := ⟨rfl, by decide⟩

/-- C4 (amended): `add` and `list` open with create, so on an absent or
zero-byte backing file they load the empty journal instead of failing;
`remove` opens read-only without create and fails with a not-found error
when the file is absent. -/
theorem C4_create_on_open (name : String) (tags : Option (List String)) (now : DateTimeUtc)
    (tag : Option String) (i : Nat) :
    Task.add none name tags now = (.ok (), some (_write_tasks [Task.new name tags now])) ∧
    Task.add (some "") name tags now = (.ok (), some (_write_tasks [Task.new name tags now])) ∧
    Task.list none tag = (.ok [.emptyNotice], some "") ∧
    Task.list (some "") tag = (.ok [.emptyNotice], some "") ∧
    Task.remove none i = (.error .notFound, none) := by
  have h0 : _get_tasks "" = .ok [] := rfl
  refine ⟨?_, ?_, ?_, ?_, rfl⟩
  · simp [Task.add, h0]
  · simp [Task.add, h0]
  · simp [Task.list, h0, listOutput]
  · simp [Task.list, h0, listOutput]

/-- C5: `Task::add` on a persisted journal appends exactly one task at the
end, leaving the previous tasks unchanged and in order; the new task has
the given name and tags and state Active; it never fails for duplicate
names or empty tag lists (it is unconditional in them). -/
theorem C5_add_appends (tasks : List Task) (hwf : ∀ t ∈ tasks, WF t)
    (name : String) (tags : Option (List String)) (now : DateTimeUtc) :
    Task.add (some (_write_tasks tasks)) name tags now =
      (.ok (), some (_write_tasks (tasks ++ [Task.new name tags now]))) ∧
    (tasks ++ [Task.new name tags now]).length = tasks.length + 1 ∧
    (Task.new name tags now).name = name ∧
    (Task.new name tags now).tags = tags ∧
    (Task.new name tags now).state = .Active := by
  refine ⟨?_, by simp, rfl, rfl, rfl⟩
  simp [Task.add, get_tasks_write tasks hwf]

/-- C5 witness: appending to a concrete one-element journal. -/
theorem C5_add_appends_witness :
    Task.add (some (_write_tasks [Task.new "a" none ⟨1, 0⟩])) "buy milk" (some ["errand"]) ⟨2, 0⟩ =
      (.ok (), some (_write_tasks ([Task.new "a" none ⟨1, 0⟩] ++
        [Task.new "buy milk" (some ["errand"]) ⟨2, 0⟩]))) :=
  (C5_add_appends [Task.new "a" none ⟨1, 0⟩] (by decide) "buy milk" (some ["errand"]) ⟨2, 0⟩).1

theorem filterMap_lineTask_taskLine (l : List Task) :
    List.filterMap (lineTask ∘ OutLine.taskLine) l = l := by
  induction l with
  | nil => rfl
  | cons a l ih => simp [lineTask, Function.comp, ih]

/-- C6: with a tag filter, list emits exactly the tasks whose tag sequence
contains the tag by exact string equality, in original order, and no other
tasks; with no filter it emits every task in order.  `tagMatch` is exact
membership: it holds iff the task has a tag list that contains the tag. -/
theorem C6_list_filter_exact (tasks : List Task) (tag : String) :
    ((listOutput tasks (some tag)).filterMap lineTask = tasks.filter (tagMatch tag)) ∧
    ((listOutput tasks none).filterMap lineTask = tasks) ∧
    (tasks ≠ [] →
      listOutput tasks (some tag) = (tasks.filter (tagMatch tag)).map OutLine.taskLine ∧
      listOutput tasks none = tasks.map OutLine.taskLine) ∧
    (∀ task : Task, tagMatch tag task = true ↔ ∃ tg, task.tags = some tg ∧ tag ∈ tg) := by
  refine ⟨?_, ?_, ?_, ?_⟩
  · by_cases he : tasks = []
    · subst he
      rfl
    · have hs : tasks.isEmpty = false := by
        cases tasks with
        | nil => exact absurd rfl he
        | cons a l => rfl
      simp [listOutput, hs, filterMap_lineTask_taskLine]
  · by_cases he : tasks = []
    · subst he
      rfl
    · have hs : tasks.isEmpty = false := by
        cases tasks with
        | nil => exact absurd rfl he
        | cons a l => rfl
      simp [listOutput, hs, filterMap_lineTask_taskLine]
  · intro he
    have hs : tasks.isEmpty = false := by
      cases tasks with
      | nil => exact absurd rfl he
      | cons a l => rfl
    constructor <;> simp [listOutput, hs]
  · intro task
    cases h : task.tags with
    | none => simp [tagMatch, h]
    | some tg => simp [tagMatch, h, List.contains_iff_exists_mem_beq, beq_iff_eq]

/-- C6 witness at a concrete journal and tag. -/
theorem C6_list_filter_exact_witness :
    listOutput [Task.new "a" (some ["x"]) ⟨0, 0⟩] (some "x") =
      (([Task.new "a" (some ["x"]) ⟨0, 0⟩]).filter (tagMatch "x")).map OutLine.taskLine :=
  ((C6_list_filter_exact [Task.new "a" (some ["x"]) ⟨0, 0⟩] "x").2.2.1 (by simp)).1

/-- C7 counterexample: a task constructed with no tags carries the distinct
`None` marker, and its persisted `tags` field is JSON `null`, not an array. -/
theorem C7_counterexample :
    (Task.new "a" none ⟨0, 0⟩).tags = none ∧
    tagsJson (Task.new "a" none ⟨0, 0⟩).tags = Json.null ∧
    Json.null ≠ Json.arr [] := by
  refine ⟨rfl, rfl, ?_⟩
  intro h
  exact Json.noConfusion h

/-- C7 (amended): `tags` is an `Option`: a task constructed without tags
(the CLI passes `None` when no `--tag` is given) stores `None`, persisted
as JSON `null`; a task constructed with a (possibly empty) tag list stores
it in order, persisted as a JSON array of strings. -/
theorem C7_tags_optional (name : String) (d : DateTimeUtc) :
    ((Task.new name none d).tags = none ∧
      tagsJson (Task.new name none d).tags = Json.null ∧
      renderValue1 (tagsJson (Task.new name none d).tags) = ['n', 'u', 'l', 'l']) ∧
    (∀ l : List String, (Task.new name (some l) d).tags = some l ∧
      tagsJson (Task.new name (some l) d).tags = Json.arr (l.map .str)) :=
  ⟨⟨rfl, rfl, rfl⟩, fun _ => ⟨rfl, rfl⟩⟩

/-- C8 counterexample: the persisted object of a concrete task has exactly
the keys name, state, tags, creted_at — there is no notes field to carry. -/
theorem C8_counterexample :
    (taskFields (Task.new "a" none ⟨0, 0⟩)).map Prod.fst =
      ["name", "state", "tags", "creted_at"] ∧
    (taskFields (Task.new "a" none ⟨0, 0⟩)).find? (fun kv => kv.1 = "notes") = none :=
  ⟨rfl, rfl⟩

/-- C8 (amended): `Task` has no notes field: construction takes a name and
optional tags only, and every persisted task object has exactly the keys
name, state, tags, creted_at — never a notes key. -/
theorem C8_no_notes (t : Task) :
    (taskFields t).map Prod.fst = ["name", "state", "tags", "creted_at"] ∧
    (taskFields t).find? (fun kv => kv.1 = "notes") = none :=
  ⟨rfl, rfl⟩

/-- C9: an empty loaded journal is not an error for list: it emits exactly
one empty-list notice, with or without a tag filter, whether the journal
file is absent, zero bytes, or a persisted empty array. -/
theorem C9_empty_notice (tag : Option String) :
    listOutput [] tag = [.emptyNotice] ∧
    Task.list none tag = (.ok [.emptyNotice], some "") ∧
    Task.list (some "") tag = (.ok [.emptyNotice], some "") ∧
    Task.list (some (_write_tasks [])) tag =
      (.ok [.emptyNotice], some (_write_tasks [])) := by
  refine ⟨rfl, rfl, rfl, rfl⟩

/-- C10: on a non-empty persisted journal, a tag filter matching no task
makes list succeed with no output at all: no task lines and no empty-list
notice. -/
theorem C10_filter_no_match (tasks : List Task) (tag : String)
    (hwf : ∀ t ∈ tasks, WF t) (hne : tasks ≠ [])
    (hmiss : ∀ t ∈ tasks, tagMatch tag t = false) :
    Task.list (some (_write_tasks tasks)) (some tag) =
      (.ok [], some (_write_tasks tasks)) := by
  have hg := get_tasks_write tasks hwf
  have hfil : tasks.filter (tagMatch tag) = [] := by
    rw [List.filter_eq_nil_iff]
    intro a ha
    simp [hmiss a ha]
  have hs : tasks.isEmpty = false := by
    cases tasks with
    | nil => exact absurd rfl hne
    | cons a l => rfl
  simp [Task.list, hg, listOutput, hs, hfil]

/-- C10 witness at a concrete journal and non-matching tag. -/
theorem C10_filter_no_match_witness :
    Task.list (some (_write_tasks [Task.new "a" none ⟨1, 0⟩])) (some "x") =
      (.ok [], some (_write_tasks [Task.new "a" none ⟨1, 0⟩])) :=
  C10_filter_no_match [Task.new "a" none ⟨1, 0⟩] "x" (by decide) (by simp) (by decide)

end RustyJournal